import Mathlib

/-!
Verification of the Brother P-Touch P700 driver
(`labelprinterkit/printers/brother_pt700.py`).

The pure protocol layer of the driver is shallowly embedded here:
bytes are `Nat`s below 256, byte strings are `List Nat`, the transport is
modelled as the sequence of `write` calls the driver performs, and Python
exceptions (`OverflowError`, `KeyError`, `IOError`) become `Option`/`Except`
failures.
-/

namespace PT700

/-!
## Run-length codec

Modelled from the spec: the driver compresses each raster line with the
external `packbits` library (a dependency, not part of the sources of this repository), which
the spec describes as industry-standard PackBits semantics: each encoded
unit is either a repeat-count header followed by one repeated byte, or a
literal-count header followed by that many literal bytes, with at most 128
bytes per run; a header byte `h ≤ 127` introduces `h + 1` literal bytes,
`h ≥ 129` repeats the next byte `257 - h` times, and `h = 128` is a no-op.
-/

/-- Length of the initial run of byte `b` at the head of the list. -/
def countRun (b : Nat) : List Nat → Nat
  | [] => 0
  | c :: cs => if c = b then countRun b cs + 1 else 0

/-- Modelled from the spec: PackBits compression.  A maximal repeat run
(capped at the 128-byte single-run limit) becomes a repeat unit
`[257 - k, b]`; an isolated byte becomes a one-byte literal unit `[0, b]`. -/
def pbEncode : List Nat → List Nat
  | [] => []
  | b :: cs =>
    if 2 ≤ min (countRun b cs + 1) 128 then
      (257 - min (countRun b cs + 1) 128) :: b ::
        pbEncode (cs.drop (min (countRun b cs + 1) 128 - 1))
    else
      0 :: b :: pbEncode cs
termination_by l => l.length
decreasing_by
  · simp only [List.length_drop, List.length_cons]
    omega
  · simp only [List.length_cons]
    omega

/-- Modelled from the spec: PackBits decompression; `none` on a truncated
run (malformed input). -/
def pbDecode : List Nat → Option (List Nat)
  | [] => some []
  | h :: rest =>
    if h ≤ 127 then
      if h + 1 ≤ rest.length then
        (pbDecode (rest.drop (h + 1))).map (fun t => rest.take (h + 1) ++ t)
      else
        none
    else if h = 128 then
      pbDecode rest
    else
      match rest with
      | [] => none
      | b :: rest2 => (pbDecode rest2).map (fun t => List.replicate (257 - h) b ++ t)
termination_by l => l.length
decreasing_by
  · simp only [List.length_drop, List.length_cons]
    omega
  · simp only [List.length_cons]
    omega
  · simp only [List.length_cons]
    omega

theorem take_of_le_countRun (b : Nat) :
    ∀ (l : List Nat) (n : Nat), n ≤ countRun b l → l.take n = List.replicate n b := by
  intro l
  induction l with
  | nil =>
    intro n h
    simp [countRun] at h
    simp [h]
  | cons c cs ih =>
    intro n h
    simp only [countRun] at h
    by_cases hc : c = b
    · rw [if_pos hc] at h
      cases n with
      | zero => simp
      | succ m =>
        simp only [List.take_succ_cons, List.replicate_succ]
        rw [hc, ih m (by omega)]
    · rw [if_neg hc] at h
      have hn : n = 0 := by omega
      rw [hn]
      simp

theorem pbEncode_cons_run (b : Nat) (cs : List Nat) (h : 1 ≤ countRun b cs) :
    pbEncode (b :: cs) = (257 - min (countRun b cs + 1) 128) :: b ::
      pbEncode (cs.drop (min (countRun b cs + 1) 128 - 1)) := by
  rw [pbEncode, if_pos (by omega)]

theorem pbEncode_cons_single (b : Nat) (cs : List Nat) (h : countRun b cs = 0) :
    pbEncode (b :: cs) = 0 :: b :: pbEncode cs := by
  rw [pbEncode, if_neg (by omega)]

theorem pbDecode_repeat (h b : Nat) (rest : List Nat) (h1 : 129 ≤ h) (h2 : h ≤ 256) :
    pbDecode (h :: b :: rest) =
      (pbDecode rest).map (fun t => List.replicate (257 - h) b ++ t) := by
  rw [pbDecode, if_neg (by omega), if_neg (by omega)]

theorem pbDecode_literal1 (b : Nat) (rest : List Nat) :
    pbDecode (0 :: b :: rest) = (pbDecode rest).map (fun t => b :: t) := by
  rw [pbDecode, if_pos (by omega), if_pos (by simp)]
  simp

/-- PackBits round-trip: decompressing a compressed byte sequence yields the
original sequence. -/
theorem pb_roundtrip : ∀ l : List Nat, pbDecode (pbEncode l) = some l
  | [] => by simp [pbEncode, pbDecode]
  | b :: cs => by
    by_cases hrun : 1 ≤ countRun b cs
    · rw [pbEncode_cons_run b cs hrun]
      have hh1 : 129 ≤ 257 - min (countRun b cs + 1) 128 := by omega
      have hh2 : 257 - min (countRun b cs + 1) 128 ≤ 256 := by omega
      rw [pbDecode_repeat _ _ _ hh1 hh2]
      rw [pb_roundtrip (cs.drop (min (countRun b cs + 1) 128 - 1))]
      simp only [Option.map_some']
      congr 1
      have h257 : 257 - (257 - min (countRun b cs + 1) 128) =
          min (countRun b cs + 1) 128 := by omega
      rw [h257]
      obtain ⟨m, hm⟩ : ∃ m, min (countRun b cs + 1) 128 = m + 1 := ⟨min (countRun b cs + 1) 128 - 1, by omega⟩
      have hmle : m ≤ countRun b cs := by omega
      rw [hm, List.replicate_succ, Nat.add_sub_cancel, List.cons_append]
      congr 1
      rw [← take_of_le_countRun b cs m hmle, List.take_append_drop]
    · rw [pbEncode_cons_single b cs (by omega)]
      rw [pbDecode_literal1]
      rw [pb_roundtrip cs]
      rfl
termination_by l => l.length
decreasing_by
  · simp only [List.length_drop, List.length_cons]
    omega
  · simp only [List.length_cons]
    omega

/-!
## Byte/integer conversions

Here `bytesToNatBE` embeds the big-endian `int.from_bytes` of Python, and
`natToBytesBE n v` embeds the big-endian `v.to_bytes(n)` on the values
where the latter does not raise `OverflowError` (i.e. `v < 256 ^ n`).
-/

/-- Embeds big-endian `int.from_bytes(l)`. -/
def bytesToNatBE (l : List Nat) : Nat :=
  l.foldl (fun acc b => acc * 256 + b) 0

/-- Embeds big-endian `v.to_bytes(n)` (the `n` low-order bytes of `v`,
most-significant first). -/
def natToBytesBE : Nat → Nat → List Nat
  | 0, _ => []
  | n + 1, v => natToBytesBE n (v / 256) ++ [v % 256]

theorem bytesToNatBE_append_singleton (l : List Nat) (b : Nat) :
    bytesToNatBE (l ++ [b]) = bytesToNatBE l * 256 + b := by
  simp [bytesToNatBE, List.foldl_append]

theorem length_natToBytesBE (n v : Nat) : (natToBytesBE n v).length = n := by
  induction n generalizing v with
  | zero => simp [natToBytesBE]
  | succ m ih => simp [natToBytesBE, ih]

theorem bytesToNatBE_natToBytesBE (n v : Nat) (h : v < 256 ^ n) :
    bytesToNatBE (natToBytesBE n v) = v := by
  induction n generalizing v with
  | zero =>
    simp [Nat.pow_zero] at h
    simp [natToBytesBE, bytesToNatBE, h]
  | succ m ih =>
    rw [natToBytesBE, bytesToNatBE_append_singleton]
    rw [ih (v / 256) (by
      rw [Nat.div_lt_iff_lt_mul (by norm_num)]
      calc v < 256 ^ (m + 1) := h
        _ = 256 ^ m * 256 := by ring)]
    rw [Nat.mul_comm]
    exact Nat.div_add_mod v 256

theorem bytesToNatBE_replicate_255 (n : Nat) :
    bytesToNatBE (List.replicate n 255) = 2 ^ (8 * n) - 1 := by
  induction n with
  | zero => simp [bytesToNatBE]
  | succ m ih =>
    have hrep : List.replicate (m + 1) 255 = List.replicate m 255 ++ [255] := by
      rw [← List.replicate_succ']
    rw [hrep, bytesToNatBE_append_singleton, ih]
    have h1 : 1 ≤ 2 ^ (8 * m) := Nat.one_le_two_pow
    have h2 : 2 ^ (8 * (m + 1)) = 2 ^ (8 * m) * 256 := by
      rw [Nat.mul_add, Nat.pow_add]
    omega

/-!
## Data model: tape geometry, errors, status

`TapeInfo` embeds the `namedtuple("TapeInfo", ...)`; the all-`None` entry for
media code 0 is the "unknown / no tape" sentinel.  Tape widths are exact
decimals, embedded as rationals.
-/

/-- Embeds `TapeInfo = namedtuple("TapeInfo", ["lmargin", "printarea", "rmargin", "width"])`;
`none` embeds Python `None`. -/
structure TapeInfo where
  lmargin : Option Nat
  printarea : Option Nat
  rmargin : Option Nat
  width : Option ℚ
  deriving DecidableEq

/-- The `TapeInfo(None, None, None, None)` sentinel (media code 0). -/
def unknownTape : TapeInfo := ⟨none, none, none, none⟩

/-- The `MEDIA_WIDTH_INFO` dict; `none` embeds a `KeyError` on lookup. -/
def MEDIA_WIDTH_INFO : Nat → Option TapeInfo
  | 0 => some unknownTape
  | 4 => some ⟨some 52, some 24, some 52, some (7 / 2)⟩
  | 6 => some ⟨some 48, some 32, some 48, some 6⟩
  | 9 => some ⟨some 39, some 50, some 39, some 9⟩
  | 12 => some ⟨some 29, some 70, some 29, some 12⟩
  | 18 => some ⟨some 8, some 112, some 8, some 18⟩
  | 24 => some ⟨some 0, some 128, some 0, some 24⟩
  | _ => none

/-- The `Errors` object: one boolean per named bit of `ERROR_MASK`. -/
structure Errors where
  no_media : Bool
  cutter_jam : Bool
  weak_battery : Bool
  hv_adapter : Bool
  replace_media : Bool
  cover_open : Bool
  overheating : Bool
  deriving DecidableEq

/-- Embeds `Errors.__init__`: test bits 0, 2, 3, 6, 8, 12, 13 of
`byte1 | byte2 << 8`. -/
def mkErrors (byte1 byte2 : Nat) : Errors :=
  ⟨(byte1 ||| byte2 <<< 8).testBit 0,
   (byte1 ||| byte2 <<< 8).testBit 2,
   (byte1 ||| byte2 <<< 8).testBit 3,
   (byte1 ||| byte2 <<< 8).testBit 6,
   (byte1 ||| byte2 <<< 8).testBit 8,
   (byte1 ||| byte2 <<< 8).testBit 12,
   (byte1 ||| byte2 <<< 8).testBit 13⟩

/-- Embeds `Errors.any`: whether any of the seven flags is set. -/
def Errors.any (e : Errors) : Bool :=
  e.no_media || e.cutter_jam || e.weak_battery || e.hv_adapter ||
    e.replace_media || e.cover_open || e.overheating

/-- The decoded `Status` object: the raw byte of the 32-byte reply at each
`INFO_OFFSETS` position, plus the derived `Errors` and `TapeInfo`. -/
structure Status where
  printhead_mark : Nat
  model_code : Nat
  error_1 : Nat
  error_2 : Nat
  media_width : Nat
  media_type : Nat
  mode : Nat
  media_length : Nat
  status_type : Nat
  phase_type : Nat
  phase_number_hi : Nat
  phase_number_lo : Nat
  notify_no : Nat
  hardware_settings : Nat
  errors : Errors
  tape_info : TapeInfo
  deriving DecidableEq

/-- Embeds `Status.__init__`: positional extraction at the `INFO_OFFSETS` offsets
(0, 4, 8, 9, 10, 11, 15, 17, 18, 19, 20, 21, 22, 26), then the derived
`Errors` and the `MEDIA_WIDTH_INFO` lookup.  `none` embeds an exception:
an `IndexError` when the buffer is shorter than 27 bytes, or the `KeyError`
raised by `MEDIA_WIDTH_INFO[media_width]` for an unknown media-width code. -/
def decodeStatus (msg : List Nat) : Option Status :=
  if 27 ≤ msg.length then
    match MEDIA_WIDTH_INFO (msg.getD 10 0) with
    | none => none
    | some ti =>
      some ⟨msg.getD 0 0, msg.getD 4 0, msg.getD 8 0, msg.getD 9 0,
        msg.getD 10 0, msg.getD 11 0, msg.getD 15 0, msg.getD 17 0,
        msg.getD 18 0, msg.getD 19 0, msg.getD 20 0, msg.getD 21 0,
        msg.getD 22 0, msg.getD 26 0,
        mkErrors (msg.getD 8 0) (msg.getD 9 0), ti⟩
  else
    none

/-- Embeds `Status.ready`: `not self.errors.any()`. -/
def Status.ready (s : Status) : Bool :=
  !s.errors.any

/-!
## Line encoder

`encode_line(bitmap_line, tape_info)`: shift the big-endian integer value of
the row left by `tape_info.rmargin` bits, re-serialize to 16 bytes
big-endian, PackBits-compress, and prepend a 2-byte little-endian length.
`none` embeds an exception: a `TypeError` when `rmargin` is `None`, or the
`OverflowError` from `to_bytes(16, ...)` when the shifted value needs more
than 16 bytes.
-/

/-- The padded pre-compression 16-byte buffer
(big-endian `(line_int << rmargin).to_bytes(16)`). -/
def paddedLine (bitmap_line : List Nat) (r : Nat) : List Nat :=
  natToBytesBE 16 (bytesToNatBE bitmap_line * 2 ^ r)

/-- Embeds `encode_line`. -/
def encode_line (bitmap_line : List Nat) (tape_info : TapeInfo) : Option (List Nat) :=
  match tape_info.rmargin with
  | none => none
  | some r =>
    if bytesToNatBE bitmap_line * 2 ^ r < 2 ^ 128 then
      some ([(pbEncode (paddedLine bitmap_line r)).length % 256,
        (pbEncode (paddedLine bitmap_line r)).length / 256 % 256] ++
          pbEncode (paddedLine bitmap_line r))
    else
      none

/-!
## Print session controller

The transport is modelled at the granularity of the `backend.write(...)`
calls of the driver: a trace is the list of byte strings written, in
order.  `_debug_status` only reads, so it contributes nothing to a trace.
-/

/-- Embeds `P700.reset`: 100 zero bytes (invalidate), then `1B 40` (initialize). -/
def resetWrites : List (List Nat) :=
  [List.replicate 100 0, [27, 64]]

/-- Status request `1B 69 53`. -/
def statusReqCmd : List Nat := [27, 105, 83]

/-- Dynamic command mode switch `1B 69 61 01`. -/
def dynCmd : List Nat := [27, 105, 97, 1]

/-- Print information command `1B 69 7A 86 01 0C 00 00 00 00 00 00`. -/
def piCmd : List Nat := [27, 105, 122, 134, 1, 12, 0, 0, 0, 0, 0, 0]

/-- Autocut (various mode) `1B 69 4D 40`. -/
def autocutCmd : List Nat := [27, 105, 77, 64]

/-- Cut-every-page `1B 69 41 01`. -/
def cutCmd : List Nat := [27, 105, 65, 1]

/-- Advanced mode `1B 69 4B 08`. -/
def advCmd : List Nat := [27, 105, 75, 8]

/-- Margin configuration `1B 69 64 0E 00`. -/
def marginCmd : List Nat := [27, 105, 100, 14, 0]

/-- Compression mode `4D 02`. -/
def comprCmd : List Nat := [77, 2]

/-- The raster-line writes: the marker byte `G` (71) followed by
`encode_line(line, tape_info)`, for each
line of the document; `none` if some line fails to encode. -/
def rasterWrites (tape_info : TapeInfo) : List (List Nat) → Option (List (List Nat))
  | [] => some []
  | line :: rest =>
    match encode_line line tape_info, rasterWrites tape_info rest with
    | some c, some rws => some ((71 :: c) :: rws)
    | _, _ => none

/-- The writes of iteration `i` of the page loop in `P700._raw_print`:
mode switch, print information (twice when `i = 0`), autocut, cut,
advanced mode, margin, compression mode, the raster lines, the marker `Z`
(90), and a
form feed `0x0C` when `i < count - 1`. -/
def pageWrites (rws : List (List Nat)) (count i : Nat) : List (List Nat) :=
  [dynCmd, piCmd] ++ (if i = 0 then [piCmd] else []) ++
    [autocutCmd, cutCmd, advCmd, marginCmd, comprCmd] ++ rws ++ [[90]] ++
    (if i < count - 1 then [[12]] else [])

/-- Embeds `P700._raw_print(status, document, count)`: reset, the per-page loop,
then the end-of-job marker `0x1A`.  `none` embeds the exception raised when
a line fails to encode. -/
def rawPrintTrace (tape_info : TapeInfo) (document : List (List Nat))
    (count : Nat) : Option (List (List Nat)) :=
  (rasterWrites tape_info document).map (fun rws =>
    resetWrites ++ ((List.range count).map (pageWrites rws count)).flatten ++ [[26]])

/-- The errors `P700.get_status` and `P700.print_label` can raise:
the two transport-level `IOError`s of `get_status`, the `KeyError` from an
unknown media-width code, the `IOError("Printer is not ready")`, and the
encoding exception from `_raw_print`. -/
inductive DriverErr where
  | noResponse
  | invalidResponse
  | unknownMedia
  | notReady
  | encodeFailure
  deriving DecidableEq

/-- Embeds `P700.get_status`, as a function of the 32-byte reply the transport
returns for the status request (`backend.read(32)` may return fewer bytes). -/
def get_status (reply : List Nat) : Except DriverErr Status :=
  if reply.length = 0 then
    .error .noResponse
  else if reply.length < 32 then
    .error .invalidResponse
  else
    match decodeStatus reply with
    | some s => .ok s
    | none => .error .unknownMedia

/-- Events of a `print_label` run: a transport write, or the call into the
external renderer (`label.render`). -/
inductive PEvent where
  | write : List Nat → PEvent
  | render : PEvent
  deriving DecidableEq

/-- The writes `get_status` performs before reading: reset, then the status
request. -/
def statusPhaseWrites : List (List Nat) :=
  resetWrites ++ [statusReqCmd]

/-- Embeds `P700.print_label`, as a function of the status reply and of the
document the renderer produces: the event trace plus the error, if any.
The readiness check precedes rendering, which precedes `_raw_print`
(called with its default `count = 1`). -/
def printLabelTrace (reply : List Nat) (document : List (List Nat)) :
    List PEvent × Option DriverErr :=
  if reply.length = 0 then
    (statusPhaseWrites.map PEvent.write, some .noResponse)
  else if reply.length < 32 then
    (statusPhaseWrites.map PEvent.write, some .invalidResponse)
  else
    match decodeStatus reply with
    | none => (statusPhaseWrites.map PEvent.write, some .unknownMedia)
    | some s =>
      if s.ready then
        match rawPrintTrace s.tape_info document 1 with
        | some tr =>
          (statusPhaseWrites.map PEvent.write ++ [PEvent.render] ++
            tr.map PEvent.write, none)
        | none => (statusPhaseWrites.map PEvent.write ++ [PEvent.render],
            some .encodeFailure)
      else
        (statusPhaseWrites.map PEvent.write, some .notReady)

/-!
## Concrete fixtures used by witnesses and counterexamples
-/

/-- The 24 mm tape entry of `MEDIA_WIDTH_INFO`. -/
def tape24 : TapeInfo := ⟨some 0, some 128, some 0, some 24⟩

/-- The 18 mm tape entry of `MEDIA_WIDTH_INFO`. -/
def tape18 : TapeInfo := ⟨some 8, some 112, some 8, some 18⟩

/-- A 32-byte status reply whose media-width byte (offset 10) is the unknown
code 99. -/
def statusBuf99 : List Nat := (List.replicate 32 0).set 10 99

/-- A 32-byte status reply whose media-width byte (offset 10) is 24 and all
other bytes zero. -/
def statusBuf24 : List Nat := (List.replicate 32 0).set 10 24

/-- A 32-byte status reply for a 24 mm tape whose first error byte
(offset 8) has bit 0 (no media) set. -/
def notReadyBuf : List Nat := ((List.replicate 32 0).set 10 24).set 8 1

/-- The status decoded from `notReadyBuf`. -/
def notReadyStatus : Status :=
  ⟨0, 0, 1, 0, 24, 0, 0, 0, 0, 0, 0, 0, 0, 0, mkErrors 1 0, tape24⟩

/-- A status whose raw fields are all zero, with the given error flags. -/
def mkStatusOfErrors (e : Errors) : Status :=
  ⟨0, 0, 0, 0, 0, 0, 0, 0, 0, 0, 0, 0, 0, 0, e, unknownTape⟩

/-!
## Claims
-/

/-- C2.  For every byte sequence `x`, decompressing the run-length
(PackBits) compression of `x` yields `x` back exactly, including when `x`
is empty, all one repeated byte, fully literal, or longer than the 128-byte
single-run limit (the encoder splits it into multiple runs transparently). -/
theorem c2_decompress_compress (x : List Nat) : pbDecode (pbEncode x) = some x :=
  pb_roundtrip x

/-- C1, counterexample to the claim as stated: `encode_line` does not return
a value for every bitmap line and every tape info with an integer right
margin — a 17-byte all-ones line on 24 mm tape makes
`int.to_bytes(16, ...)` raise `OverflowError`. -/
theorem c1_claim_cex :
    ¬ ∀ (line : List Nat) (ti : TapeInfo) (r : Nat), ti.rmargin = some r →
      (encode_line line ti).isSome = true := by
  intro h
  have h1 := h (List.replicate 17 255) tape24 0 rfl
  have h2 : encode_line (List.replicate 17 255) tape24 = none := by decide
  rw [h2] at h1
  simp at h1

/-- C1 (amended: provided the shifted line value fits in 16 bytes).
`encode_line` interprets the line bytes as one unsigned big-endian integer,
left-shifts it by the right margin `r`, re-serializes it to exactly 16
bytes big-endian with zero padding on the left, compresses that buffer with
the run-length codec, and returns a 2-byte little-endian length prefix of
the compressed payload followed by the compressed payload. -/
theorem c1_encode_line_format (line : List Nat) (ti : TapeInfo) (r : Nat)
    (hr : ti.rmargin = some r) (hfit : bytesToNatBE line * 2 ^ r < 2 ^ 128) :
    ∃ comp pad,
      pad = natToBytesBE 16 (bytesToNatBE line * 2 ^ r) ∧
      pad.length = 16 ∧
      bytesToNatBE pad = bytesToNatBE line * 2 ^ r ∧
      comp = pbEncode pad ∧
      encode_line line ti =
        some ([comp.length % 256, comp.length / 256 % 256] ++ comp) := by
  refine ⟨pbEncode (paddedLine line r), paddedLine line r, rfl, ?_, ?_, rfl, ?_⟩
  · exact length_natToBytesBE 16 _
  · apply bytesToNatBE_natToBytesBE
    have h : (256 : Nat) ^ 16 = 2 ^ 128 := by norm_num
    omega
  · simp only [encode_line, hr, if_pos hfit]

/-- C1 witness: the amended statement at a concrete line and tape. -/
theorem c1_encode_line_format_witness :
    ∃ comp pad,
      pad = natToBytesBE 16 (bytesToNatBE [255] * 2 ^ 0) ∧
      pad.length = 16 ∧
      bytesToNatBE pad = bytesToNatBE [255] * 2 ^ 0 ∧
      comp = pbEncode pad ∧
      encode_line [255] tape24 =
        some ([comp.length % 256, comp.length / 256 % 256] ++ comp) :=
  c1_encode_line_format [255] tape24 0 rfl (by decide)

/-- C10.  When the shifted line value does not fit in 16 bytes,
`encode_line` raises (returns nothing) instead of silently truncating; and
whenever it does return, the compressed payload decompresses to the 16-byte
serialization of the shifted input value. -/
theorem c10_encode_line_no_truncation (line : List Nat) (ti : TapeInfo) (r : Nat)
    (hr : ti.rmargin = some r) :
    (2 ^ 128 ≤ bytesToNatBE line * 2 ^ r → encode_line line ti = none) ∧
    (∀ out, encode_line line ti = some out →
      pbDecode (pbEncode (paddedLine line r)) = some (paddedLine line r) ∧
      bytesToNatBE (paddedLine line r) = bytesToNatBE line * 2 ^ r ∧
      out = [(pbEncode (paddedLine line r)).length % 256,
        (pbEncode (paddedLine line r)).length / 256 % 256] ++
          pbEncode (paddedLine line r)) := by
  constructor
  · intro hof
    simp only [encode_line, hr]
    rw [if_neg (by omega)]
  · intro out hout
    simp only [encode_line, hr] at hout
    by_cases hfit : bytesToNatBE line * 2 ^ r < 2 ^ 128
    · rw [if_pos hfit] at hout
      refine ⟨pb_roundtrip _, ?_, (Option.some.inj hout).symm⟩
      apply bytesToNatBE_natToBytesBE
      have h : (256 : Nat) ^ 16 = 2 ^ 128 := by norm_num
      omega
    · rw [if_neg hfit] at hout
      exact absurd hout (by simp)

/-- C10 witness: a full-width all-ones line on 18 mm tape (right margin 8)
overflows the 16-byte serialization, and `encode_line` raises. -/
theorem c10_encode_line_no_truncation_witness :
    encode_line (List.replicate 16 255) tape18 = none :=
  (c10_encode_line_no_truncation (List.replicate 16 255) tape18 8 rfl).1 (by decide)

/-- C7.  For a line of `n` all-ones bytes and right margin `r` (fitting the
128-bit raster), the padded pre-compression 16-byte buffer has its lowest
`r` bits clear and the `8 * n` bits above them set, matching direct
big-integer left-shift semantics. -/
theorem c7_margin_bits (n r : Nat) (h : 8 * n + r ≤ 128) :
    bytesToNatBE (paddedLine (List.replicate n 255) r) = (2 ^ (8 * n) - 1) * 2 ^ r ∧
    (∀ i, i < r →
      (bytesToNatBE (paddedLine (List.replicate n 255) r)).testBit i = false) ∧
    (∀ i, r ≤ i → i < 8 * n + r →
      (bytesToNatBE (paddedLine (List.replicate n 255) r)).testBit i = true) ∧
    (∀ i, 8 * n + r ≤ i →
      (bytesToNatBE (paddedLine (List.replicate n 255) r)).testBit i = false) := by
  have hval : bytesToNatBE (paddedLine (List.replicate n 255) r) =
      (2 ^ (8 * n) - 1) * 2 ^ r := by
    rw [paddedLine, bytesToNatBE_replicate_255]
    apply bytesToNatBE_natToBytesBE
    have h1 : 1 ≤ 2 ^ (8 * n) := Nat.one_le_two_pow
    have hp : 0 < 2 ^ r := Nat.pos_pow_of_pos r (by norm_num)
    have h2 : (2 ^ (8 * n) - 1) * 2 ^ r < 2 ^ (8 * n) * 2 ^ r :=
      (Nat.mul_lt_mul_right hp).mpr (by omega)
    have h3 : 2 ^ (8 * n) * 2 ^ r = 2 ^ (8 * n + r) := (Nat.pow_add 2 _ _).symm
    have h4 : 2 ^ (8 * n + r) ≤ 2 ^ 128 :=
      Nat.pow_le_pow_right (by norm_num) h
    have h5 : (256 : Nat) ^ 16 = 2 ^ 128 := by norm_num
    omega
  have hbit : ∀ i, (bytesToNatBE (paddedLine (List.replicate n 255) r)).testBit i =
      (decide (r ≤ i) && decide (i - r < 8 * n)) := by
    intro i
    rw [hval, Nat.mul_comm, Nat.testBit_mul_pow_two, Nat.testBit_two_pow_sub_one]
  refine ⟨hval, ?_, ?_, ?_⟩
  · intro i hi
    rw [hbit]
    have hni : ¬ r ≤ i := by omega
    simp [hni]
  · intro i h1 h2
    rw [hbit]
    have h3 : i - r < 8 * n := by omega
    simp [h1, h3]
  · intro i hi
    rw [hbit]
    have h3 : ¬ (i - r < 8 * n) := by omega
    simp [h3]

/-- C7 witness: the value identity at `n = 2`, `r = 3`. -/
theorem c7_margin_bits_witness :
    bytesToNatBE (paddedLine (List.replicate 2 255) 3) = (2 ^ (8 * 2) - 1) * 2 ^ 3 :=
  (c7_margin_bits 2 3 (by omega)).1

/-- C4, counterexample to the claim as stated: decoding a 32-byte buffer
whose media-width code is not in the known table does not succeed — the
`MEDIA_WIDTH_INFO[...]` lookup raises `KeyError` (the decode fails). -/
theorem c4_claim_cex :
    ¬ ∀ msg : List Nat, msg.length = 32 →
      MEDIA_WIDTH_INFO (msg.getD 10 0) = none →
      (decodeStatus msg).isSome = true := by
  intro h
  exact absurd (h statusBuf99 (by decide) (by decide)) (by decide)

/-- C4 (amended): for a media-width code not in the known table, decoding a
32-byte status buffer fails (models the `KeyError`); only the in-table code
0 yields the all-undefined sentinel `TapeInfo`. -/
theorem c4_unknown_media (msg : List Nat) (h32 : msg.length = 32) :
    (MEDIA_WIDTH_INFO (msg.getD 10 0) = none → decodeStatus msg = none) ∧
    (msg.getD 10 0 = 0 →
      ∃ s, decodeStatus msg = some s ∧ s.tape_info = unknownTape) := by
  constructor
  · intro hu
    rw [decodeStatus, if_pos (by omega), hu]
  · intro h0
    rw [decodeStatus, if_pos (by omega), h0]
    exact ⟨_, rfl, rfl⟩

/-- C4 witness: the amended statement at the concrete buffer with
media-width code 99. -/
theorem c4_unknown_media_witness : decodeStatus statusBuf99 = none :=
  (c4_unknown_media statusBuf99 (by decide)).1 (by decide)

/-- C5.  Each named error flag of `Errors(byte1, byte2)` equals the
corresponding bit (0, 2, 3, 6, 8, 12, 13) of `byte1 | byte2 << 8`;
`ready()` is true iff none of those bits is set; and bits outside the mask
never affect the flags (hence never affect `ready()`), without raising. -/
theorem c5_error_bits (b1 b2 : Nat) :
    ((mkErrors b1 b2).no_media = (b1 ||| b2 <<< 8).testBit 0 ∧
     (mkErrors b1 b2).cutter_jam = (b1 ||| b2 <<< 8).testBit 2 ∧
     (mkErrors b1 b2).weak_battery = (b1 ||| b2 <<< 8).testBit 3 ∧
     (mkErrors b1 b2).hv_adapter = (b1 ||| b2 <<< 8).testBit 6 ∧
     (mkErrors b1 b2).replace_media = (b1 ||| b2 <<< 8).testBit 8 ∧
     (mkErrors b1 b2).cover_open = (b1 ||| b2 <<< 8).testBit 12 ∧
     (mkErrors b1 b2).overheating = (b1 ||| b2 <<< 8).testBit 13) ∧
    (∀ s : Status, s.errors = mkErrors b1 b2 →
      (s.ready = true ↔ ∀ i ∈ ([0, 2, 3, 6, 8, 12, 13] : List Nat),
        (b1 ||| b2 <<< 8).testBit i = false)) ∧
    (∀ c1 c2 : Nat,
      (∀ i ∈ ([0, 2, 3, 6, 8, 12, 13] : List Nat),
        (b1 ||| b2 <<< 8).testBit i = (c1 ||| c2 <<< 8).testBit i) →
      mkErrors b1 b2 = mkErrors c1 c2) := by
  refine ⟨⟨rfl, rfl, rfl, rfl, rfl, rfl, rfl⟩, ?_, ?_⟩
  · intro s hs
    rw [Status.ready, hs]
    simp [Errors.any, mkErrors, List.forall_mem_cons]
    tauto
  · intro c1 c2 hbits
    simp only [List.forall_mem_cons, List.forall_mem_singleton] at hbits
    simp only [mkErrors, Errors.mk.injEq]
    tauto

/-- C5 witness: with `byte1 = 1` (bit 0 set) the readiness equivalence at a
concrete status yields `ready() = false` facts via the bit test. -/
theorem c5_error_bits_witness :
    (mkStatusOfErrors (mkErrors 1 0)).ready = true ↔
      ∀ i ∈ ([0, 2, 3, 6, 8, 12, 13] : List Nat),
        ((1 : Nat) ||| 0 <<< 8).testBit i = false :=
  (c5_error_bits 1 0).2.1 (mkStatusOfErrors (mkErrors 1 0)) rfl

/-- C6.  Decoding a 32-byte status buffer is purely positional — every named
field equals the byte at its fixed offset (0, 4, 8, 9, 10, 11, 15, 17, 18,
19, 20, 21, 22, 26) — and a buffer with byte 10 equal to 24 decodes to
`media_width = 24` with tape info `{0, 128, 0, 24.0}`. -/
theorem c6_status_offsets (msg : List Nat) (h32 : msg.length = 32) :
    (∀ s, decodeStatus msg = some s →
      s.printhead_mark = msg.getD 0 0 ∧ s.model_code = msg.getD 4 0 ∧
      s.error_1 = msg.getD 8 0 ∧ s.error_2 = msg.getD 9 0 ∧
      s.media_width = msg.getD 10 0 ∧ s.media_type = msg.getD 11 0 ∧
      s.mode = msg.getD 15 0 ∧ s.media_length = msg.getD 17 0 ∧
      s.status_type = msg.getD 18 0 ∧ s.phase_type = msg.getD 19 0 ∧
      s.phase_number_hi = msg.getD 20 0 ∧ s.phase_number_lo = msg.getD 21 0 ∧
      s.notify_no = msg.getD 22 0 ∧ s.hardware_settings = msg.getD 26 0 ∧
      s.errors = mkErrors (msg.getD 8 0) (msg.getD 9 0)) ∧
    (msg.getD 10 0 = 24 → ∃ s, decodeStatus msg = some s ∧
      s.media_width = 24 ∧ s.tape_info = tape24) := by
  constructor
  · intro s hs
    rw [decodeStatus, if_pos (by omega)] at hs
    cases hmw : MEDIA_WIDTH_INFO (msg.getD 10 0) with
    | none =>
      rw [hmw] at hs
      exact absurd hs (by simp)
    | some ti =>
      rw [hmw] at hs
      obtain rfl := Option.some.inj hs
      exact ⟨rfl, rfl, rfl, rfl, rfl, rfl, rfl, rfl, rfl, rfl, rfl, rfl, rfl,
        rfl, rfl⟩
  · intro h24
    rw [decodeStatus, if_pos (by omega), h24]
    exact ⟨_, rfl, rfl, rfl⟩

/-- C6 witness: the concrete buffer with byte 10 set to 24 decodes with
`media_width = 24` and the 24 mm tape info. -/
theorem c6_status_offsets_witness :
    ∃ s, decodeStatus statusBuf24 = some s ∧
      s.media_width = 24 ∧ s.tape_info = tape24 :=
  (c6_status_offsets statusBuf24 (by decide)).2 (by decide)

/-- C9, counterexample to the claim as stated: a 32-byte reply does not
always give a decoded `Status` — the unknown media-width code 99 makes
`get_status` raise (`KeyError` from the tape-info lookup). -/
theorem c9_claim_cex :
    ¬ ∀ reply : List Nat, 32 ≤ reply.length →
      ∃ s, get_status reply = Except.ok s := by
  intro h
  obtain ⟨s, hs⟩ := h statusBuf99 (by decide)
  have hds : decodeStatus statusBuf99 = none := by decide
  have h2 : get_status statusBuf99 = Except.error DriverErr.unknownMedia := by
    rw [get_status, if_neg (by decide), if_neg (by decide), hds]
  rw [h2] at hs
  exact Except.noConfusion hs

/-- C9 (amended): `get_status` raises a transport-level error for every
reply shorter than 32 bytes (including the empty reply); for a reply of at
least 32 bytes it returns the decoded `Status` provided the media-width
code is in the known table, and raises a decode error otherwise; it never
returns a status built from a short reply. -/
theorem c9_get_status (reply : List Nat) :
    (reply.length < 32 → ∃ e, get_status reply = Except.error e ∧
      (e = DriverErr.noResponse ∨ e = DriverErr.invalidResponse)) ∧
    (32 ≤ reply.length → (MEDIA_WIDTH_INFO (reply.getD 10 0)).isSome = true →
      ∃ s, get_status reply = Except.ok s ∧ decodeStatus reply = some s) ∧
    (32 ≤ reply.length → MEDIA_WIDTH_INFO (reply.getD 10 0) = none →
      get_status reply = Except.error DriverErr.unknownMedia) ∧
    (∀ s, get_status reply = Except.ok s →
      32 ≤ reply.length ∧ decodeStatus reply = some s) := by
  refine ⟨?_, ?_, ?_, ?_⟩
  · intro hlt
    by_cases h0 : reply.length = 0
    · rw [get_status, if_pos h0]
      exact ⟨_, rfl, Or.inl rfl⟩
    · rw [get_status, if_neg h0, if_pos hlt]
      exact ⟨_, rfl, Or.inr rfl⟩
  · intro h32 hsome
    obtain ⟨ti, hti⟩ := Option.isSome_iff_exists.mp hsome
    have hds : ∃ s, decodeStatus reply = some s := by
      rw [decodeStatus, if_pos (by omega), hti]
      exact ⟨_, rfl⟩
    obtain ⟨s, hs⟩ := hds
    refine ⟨s, ?_, hs⟩
    rw [get_status, if_neg (by omega), if_neg (by omega), hs]
  · intro h32 hnone
    have hds : decodeStatus reply = none := by
      rw [decodeStatus, if_pos (by omega), hnone]
    rw [get_status, if_neg (by omega), if_neg (by omega), hds]
  · intro s hs
    by_cases h0 : reply.length = 0
    · rw [get_status, if_pos h0] at hs
      exact absurd hs (by simp)
    · by_cases hlt : reply.length < 32
      · rw [get_status, if_neg h0, if_pos hlt] at hs
        exact absurd hs (by simp)
      · refine ⟨by omega, ?_⟩
        rw [get_status, if_neg h0, if_neg hlt] at hs
        cases hds : decodeStatus reply with
        | none =>
          rw [hds] at hs
          exact absurd hs (by simp)
        | some s2 =>
          rw [hds] at hs
          obtain rfl := Except.ok.inj hs
          rfl

/-- C9 witness: a 3-byte short reply raises a transport-level error. -/
theorem c9_get_status_witness :
    ∃ e, get_status [1, 2, 3] = Except.error e ∧
      (e = DriverErr.noResponse ∨ e = DriverErr.invalidResponse) :=
  (c9_get_status [1, 2, 3]).1 (by decide)

/-- C8.  When the decoded status is not ready, `print_label` fails with the
not-ready error before rendering and before writing any print-sequence or
raster bytes: the transport trace is exactly the status-phase writes
(reset + status request), with no render event and no other write. -/
theorem c8_not_ready_aborts (reply : List Nat) (doc : List (List Nat))
    (s : Status) (h32 : 32 ≤ reply.length) (hds : decodeStatus reply = some s)
    (hnr : s.ready = false) :
    printLabelTrace reply doc =
      (statusPhaseWrites.map PEvent.write, some DriverErr.notReady) ∧
    PEvent.render ∉ (printLabelTrace reply doc).1 ∧
    (∀ w, PEvent.write w ∈ (printLabelTrace reply doc).1 →
      w ∈ statusPhaseWrites) := by
  have h1 : printLabelTrace reply doc =
      (statusPhaseWrites.map PEvent.write, some DriverErr.notReady) := by
    rw [printLabelTrace, if_neg (by omega), if_neg (by omega), hds]
    simp [hnr]
  refine ⟨h1, ?_, ?_⟩
  · rw [h1]
    simp
  · intro w hw
    rw [h1] at hw
    simp only [List.mem_map] at hw
    obtain ⟨x, hx, heq⟩ := hw
    obtain rfl : x = w := by
      injection heq
    exact hx

/-- C8 witness: with the concrete no-media status reply, the run aborts
with the not-ready error after only the status-phase writes. -/
theorem c8_not_ready_aborts_witness :
    printLabelTrace notReadyBuf [[255]] =
      (statusPhaseWrites.map PEvent.write, some DriverErr.notReady) :=
  (c8_not_ready_aborts notReadyBuf [[255]] notReadyStatus (by decide)
    (by decide) (by decide)).1

/-!
## Session-ordering lemmas for C3
-/

theorem rasterWrites_shape (ti : TapeInfo) :
    ∀ (doc rws : List (List Nat)), rasterWrites ti doc = some rws →
      ∀ w ∈ rws, ∃ c, w = 71 :: c := by
  intro doc
  induction doc with
  | nil =>
    intro rws h w hw
    rw [rasterWrites] at h
    obtain rfl := Option.some.inj h
    simp at hw
  | cons line rest ih =>
    intro rws h w hw
    rw [rasterWrites] at h
    cases henc : encode_line line ti with
    | none =>
      rw [henc] at h
      exact absurd h (by simp)
    | some c =>
      cases hrest : rasterWrites ti rest with
      | none =>
        rw [henc, hrest] at h
        exact absurd h (by simp)
      | some rws2 =>
        rw [henc, hrest] at h
        obtain rfl := Option.some.inj h
        rcases List.mem_cons.mp hw with h1 | h2
        · exact ⟨c, h1⟩
        · exact ih rws2 hrest w h2

theorem not_mem_of_shape {rws : List (List Nat)}
    (hsh : ∀ w ∈ rws, ∃ c, w = 71 :: c) (w : List Nat)
    (hw : w.head? ≠ some 71) : w ∉ rws := by
  intro hmem
  obtain ⟨c, hc⟩ := hsh w hmem
  rw [hc] at hw
  simp at hw

theorem count_pageWrites_pi_first (rws : List (List Nat)) (count : Nat)
    (hpi : piCmd ∉ rws) :
    List.count piCmd (pageWrites rws count 0) = 2 := by
  rw [pageWrites, if_pos rfl]
  by_cases hff : 0 < count - 1
  · rw [if_pos hff]
    simp only [List.count_append, List.count_eq_zero.mpr hpi]
    decide
  · rw [if_neg hff]
    simp only [List.count_append, List.count_eq_zero.mpr hpi]
    decide

theorem count_pageWrites_pi_later (rws : List (List Nat)) (count i : Nat)
    (hpi : piCmd ∉ rws) (hi : 1 ≤ i) :
    List.count piCmd (pageWrites rws count i) = 1 := by
  rw [pageWrites, if_neg (by omega)]
  by_cases hff : i < count - 1
  · rw [if_pos hff]
    simp only [List.count_append, List.count_eq_zero.mpr hpi]
    decide
  · rw [if_neg hff]
    simp only [List.count_append, List.count_eq_zero.mpr hpi]
    decide

theorem count_pageWrites_ff (rws : List (List Nat)) (count i : Nat)
    (hff12 : ([12] : List Nat) ∉ rws) :
    List.count ([12] : List Nat) (pageWrites rws count i) =
      if i < count - 1 then 1 else 0 := by
  rw [pageWrites]
  by_cases h0 : i = 0 <;> by_cases hff : i < count - 1
  · rw [if_pos h0, if_pos hff, if_pos hff]
    simp only [List.count_append, List.count_eq_zero.mpr hff12]
    decide
  · rw [if_pos h0, if_neg hff, if_neg hff]
    simp only [List.count_append, List.count_eq_zero.mpr hff12]
    decide
  · rw [if_neg h0, if_pos hff, if_pos hff]
    simp only [List.count_append, List.count_eq_zero.mpr hff12]
    decide
  · rw [if_neg h0, if_neg hff, if_neg hff]
    simp only [List.count_append, List.count_eq_zero.mpr hff12]
    decide

theorem sum_map_one (l : List Nat) : (l.map (fun _ => (1 : Nat))).sum = l.length := by
  induction l with
  | nil => simp
  | cons a l ih =>
    simp only [List.map_cons, List.sum_cons, ih, List.length_cons]
    omega

theorem sum_map_ite_first (n : Nat) (h : 1 ≤ n) :
    ((List.range n).map (fun i => if i = 0 then (2 : Nat) else 1)).sum = n + 1 := by
  obtain ⟨m, rfl⟩ : ∃ m, n = m + 1 := ⟨n - 1, by omega⟩
  rw [List.range_succ_eq_map]
  simp only [List.map_cons, List.map_map, List.sum_cons, if_pos rfl]
  have hmap : (List.range m).map
      ((fun i => if i = 0 then (2 : Nat) else 1) ∘ Nat.succ) =
      (List.range m).map (fun _ => (1 : Nat)) := by
    apply List.map_congr_left
    intro a _
    simp [Function.comp]
  rw [hmap, sum_map_one]
  simp only [List.length_range, if_true]
  omega

theorem sum_map_ite_lt (n m : Nat) :
    ((List.range n).map (fun i => if i < m then (1 : Nat) else 0)).sum = min n m := by
  induction n with
  | zero => simp
  | succ k ih =>
    rw [List.range_succ, List.map_append, List.sum_append, ih]
    by_cases h : k < m
    · simp only [List.map_cons, List.map_nil, if_pos h]
      simp
      omega
    · simp only [List.map_cons, List.map_nil, if_neg h]
      simp
      omega

theorem rawPrintTrace_eq (ti : TapeInfo) (doc : List (List Nat)) (count : Nat)
    (tr rws : List (List Nat)) (hrws : rasterWrites ti doc = some rws)
    (htr : rawPrintTrace ti doc count = some tr) :
    tr = resetWrites ++
      ((List.range count).map (pageWrites rws count)).flatten ++ [[26]] := by
  rw [rawPrintTrace, hrws] at htr
  exact (Option.some.inj htr).symm

theorem count_pi_trace (rws : List (List Nat)) (count : Nat)
    (hpi : piCmd ∉ rws) (hc : 1 ≤ count) :
    List.count piCmd (resetWrites ++
      ((List.range count).map (pageWrites rws count)).flatten ++ [[26]]) =
      count + 1 := by
  rw [List.count_append, List.count_append, List.count_flatten, List.map_map]
  have hmap : (List.range count).map (List.count piCmd ∘ pageWrites rws count) =
      (List.range count).map (fun i => if i = 0 then (2 : Nat) else 1) := by
    apply List.map_congr_left
    intro i _
    by_cases h0 : i = 0
    · subst h0
      simp only [Function.comp_apply, count_pageWrites_pi_first rws count hpi]
      simp
    · simp only [Function.comp_apply,
        count_pageWrites_pi_later rws count i hpi (by omega)]
      simp [h0]
  rw [hmap, sum_map_ite_first count hc]
  have hc1 : List.count piCmd resetWrites = 0 := by decide
  have hc2 : List.count piCmd [[26]] = 0 := by decide
  omega

theorem count_ff_trace (rws : List (List Nat)) (count : Nat)
    (hff : ([12] : List Nat) ∉ rws) :
    List.count ([12] : List Nat) (resetWrites ++
      ((List.range count).map (pageWrites rws count)).flatten ++ [[26]]) =
      count - 1 := by
  rw [List.count_append, List.count_append, List.count_flatten, List.map_map]
  have hmap : (List.range count).map
      (List.count ([12] : List Nat) ∘ pageWrites rws count) =
      (List.range count).map (fun i => if i < count - 1 then (1 : Nat) else 0) := by
    apply List.map_congr_left
    intro i _
    simp only [Function.comp_apply, count_pageWrites_ff rws count i hff]
  rw [hmap, sum_map_ite_lt count (count - 1)]
  have hc1 : List.count ([12] : List Nat) resetWrites = 0 := by decide
  have hc2 : List.count ([12] : List Nat) [[26]] = 0 := by decide
  omega

/-- C3.  Session ordering: for a 1-copy job the trace is reset, then the
per-page commands in the fixed order (mode switch, print information twice
consecutively, autocut, cut, advanced mode, margin, compression), then the
raster lines, so the print-information command occurs exactly twice,
consecutively, before any raster write; for a job of 2 or more copies a
form feed is written between consecutive pages but not after the last one,
and the print-information command occurs twice only on the first page
(once on every later page). -/
theorem c3_session_ordering (ti : TapeInfo) (doc : List (List Nat)) (count : Nat)
    (tr rws : List (List Nat)) (hrws : rasterWrites ti doc = some rws)
    (htr : rawPrintTrace ti doc count = some tr) :
    (∀ w ∈ rws, ∃ c, w = 71 :: c) ∧
    (count = 1 →
      tr = resetWrites ++ [dynCmd, piCmd, piCmd, autocutCmd, cutCmd, advCmd,
        marginCmd, comprCmd] ++ rws ++ [[90], [26]] ∧
      List.count piCmd tr = 2 ∧
      ∃ pre post, tr = pre ++ [piCmd, piCmd] ++ post ∧
        ∀ w ∈ pre, w.head? ≠ some 71) ∧
    (1 ≤ count → List.count piCmd tr = count + 1) ∧
    (2 ≤ count →
      List.count ([12] : List Nat) tr = count - 1 ∧
      (∃ pre2, tr = pre2 ++ [[90], [26]]) ∧
      (∃ post2, tr = resetWrites ++ [dynCmd, piCmd, piCmd, autocutCmd, cutCmd,
        advCmd, marginCmd, comprCmd] ++ rws ++ [[90], [12]] ++ post2 ∧
        List.count piCmd post2 = count - 1) ∧
      (∀ i, 1 ≤ i → List.count piCmd (pageWrites rws count i) = 1) ∧
      (∀ i, List.count ([12] : List Nat) (pageWrites rws count i) =
        if i < count - 1 then 1 else 0)) := by
  have hsh := rasterWrites_shape ti doc rws hrws
  have hpi : piCmd ∉ rws := not_mem_of_shape hsh piCmd (by decide)
  have hff : ([12] : List Nat) ∉ rws := not_mem_of_shape hsh [12] (by decide)
  have htreq := rawPrintTrace_eq ti doc count tr rws hrws htr
  refine ⟨hsh, ?_, ?_, ?_⟩
  · intro hc1
    subst hc1
    have hpage : pageWrites rws 1 0 = [dynCmd, piCmd, piCmd, autocutCmd, cutCmd,
        advCmd, marginCmd, comprCmd] ++ rws ++ [[90]] := by
      rw [pageWrites, if_pos rfl, if_neg (by omega)]
      simp
    have h1 : tr = resetWrites ++ [dynCmd, piCmd, piCmd, autocutCmd, cutCmd,
        advCmd, marginCmd, comprCmd] ++ rws ++ [[90], [26]] := by
      rw [htreq, show List.range 1 = [0] from rfl]
      simp only [List.map_cons, List.map_nil, List.flatten_cons,
        List.flatten_nil, List.append_nil, hpage]
      simp [List.append_assoc]
    refine ⟨h1, ?_, ?_⟩
    · rw [htreq]
      exact count_pi_trace rws 1 hpi (by omega)
    · refine ⟨resetWrites ++ [dynCmd], [autocutCmd, cutCmd, advCmd, marginCmd,
        comprCmd] ++ rws ++ [[90], [26]], ?_, by decide⟩
      rw [h1]
      simp [List.append_assoc]
  · intro hc
    rw [htreq]
    exact count_pi_trace rws count hpi hc
  · intro hc2
    refine ⟨?_, ?_, ?_, ?_, ?_⟩
    · rw [htreq]
      exact count_ff_trace rws count hff
    · obtain ⟨m, rfl⟩ : ∃ m, count = m + 1 := ⟨count - 1, by omega⟩
      have hlast : pageWrites rws (m + 1) m = [dynCmd, piCmd, autocutCmd,
          cutCmd, advCmd, marginCmd, comprCmd] ++ rws ++ [[90]] := by
        rw [pageWrites, if_neg (by omega), if_neg (by omega)]
        simp
      refine ⟨resetWrites ++ ((List.range m).map (pageWrites rws (m + 1))).flatten
        ++ ([dynCmd, piCmd, autocutCmd, cutCmd, advCmd, marginCmd, comprCmd]
          ++ rws), ?_⟩
      rw [htreq, List.range_succ, List.map_append, List.flatten_append]
      simp only [List.map_cons, List.map_nil, List.flatten_cons,
        List.flatten_nil, List.append_nil, hlast]
      simp [List.append_assoc]
    · obtain ⟨m, rfl⟩ : ∃ m, count = m + 1 := ⟨count - 1, by omega⟩
      have hfirst : pageWrites rws (m + 1) 0 = [dynCmd, piCmd, piCmd,
          autocutCmd, cutCmd, advCmd, marginCmd, comprCmd] ++ rws ++
          [[90], [12]] := by
        rw [pageWrites, if_pos rfl, if_pos (by omega)]
        simp
      refine ⟨(((List.range m).map Nat.succ).map (pageWrites rws (m + 1))).flatten
        ++ [[26]], ?_, ?_⟩
      · rw [htreq, List.range_succ_eq_map, List.map_cons, List.flatten_cons,
          hfirst]
        simp [List.append_assoc]
      · rw [List.count_append, List.count_flatten, List.map_map]
        have hmap : ((List.range m).map Nat.succ).map
            (List.count piCmd ∘ pageWrites rws (m + 1)) =
            ((List.range m).map Nat.succ).map (fun _ => (1 : Nat)) := by
          apply List.map_congr_left
          intro j hj
          obtain ⟨a, _, rfl⟩ := List.mem_map.mp hj
          simp only [Function.comp_apply]
          exact count_pageWrites_pi_later rws (m + 1) (Nat.succ a) hpi
            (by omega)
        rw [hmap, sum_map_one]
        have hc26 : List.count piCmd [[26]] = 0 := by decide
        simp only [hc26, List.length_map, List.length_range]
        omega
    · intro i hi
      exact count_pageWrites_pi_later rws count i hpi hi
    · intro i
      exact count_pageWrites_ff rws count i hff

/-- C3 witness: a concrete one-line document on 24 mm tape with one copy has
exactly two print-information writes in its trace. -/
theorem c3_session_ordering_witness :
    List.count piCmd ((rawPrintTrace tape24 [[255]] 1).getD []) = 2 := by
  obtain ⟨c, henc⟩ : ∃ c, encode_line [255] tape24 = some c := by
    simp only [encode_line, tape24]
    rw [if_pos (by decide)]
    exact ⟨_, rfl⟩
  have hrws : rasterWrites tape24 [[255]] = some [71 :: c] := by
    rw [rasterWrites, henc, rasterWrites]
  obtain ⟨tr, htr⟩ : ∃ tr, rawPrintTrace tape24 [[255]] 1 = some tr := by
    rw [rawPrintTrace, hrws]
    exact ⟨_, rfl⟩
  rw [htr]
  simpa using (c3_session_ordering tape24 [[255]] 1 tr
    [71 :: c] hrws htr).2.1 rfl |>.2.1

end PT700
